import Mathlib

/-
Verification of the histyle style registry (src/histyle/histyles.go).

The Go file keeps process-wide state: the collections StdStyles, CustomStyles
and AvailStyles (each a Go map from string to a Style value), the fallback
name StyleDefault, the derived list StyleNames, and the flag StylesChanged.
We embed that state as the structure RegistryState; the external world
(the chroma registry snapshot, the preferences file, write success) is the
structure Env.  A Go map is embedded as an Option over an association list:
none models a nil map, some l an allocated map whose iteration order is the
order of l.  Map assignment overwrites the entry in place or appends a new
one, which mirrors that inserting an existing key keeps the key set and
inserting a fresh key extends it.
-/

namespace Histyle

/-- Modelled from the spec: the Style type is defined outside this file
(only its use sites are in src/histyle/histyles.go).  The spec treats it as
an opaque value object supporting deep copy, so we model it as a plain
value. -/
abbrev Style := Nat

/-- Entries of a Go map from string to Style, in iteration order. -/
abbrev StyleMap := List (String × Style)

/-- Go map read m[n]: the value stored at the first entry with key n. -/
def lookupEntry : StyleMap → String → Option Style
  | [], _ => none
  | (k, v) :: rest, n => if k = n then some v else lookupEntry rest n

/-- Go map assignment m[n] = st: overwrite the entry with key n in place,
or append a fresh entry. -/
def insertEntry : StyleMap → String → Style → StyleMap
  | [], n, st => [(n, st)]
  | (k, v) :: rest, n, st =>
      if k = n then (n, st) :: rest else (k, v) :: insertEntry rest n st

/-- Iterated map assignment: store every entry of src into dst, in order.
This is the loop body shared by Styles.CopyFrom, Styles.FromChroma and
json.Unmarshal into an existing map. -/
def copyEntries : StyleMap → StyleMap → StyleMap
  | dst, [] => dst
  | dst, (n, st) :: rest => copyEntries (insertEntry dst n st) rest

/-- The keys of a map, in iteration order. -/
def entryKeys (l : StyleMap) : List String := l.map Prod.fst

/-- Styles is a collection of styles (Go: type Styles map[string]*Style).
The entries field is none for a nil map. -/
structure Styles where
  entries : Option StyleMap
deriving DecidableEq

/-- Go map read hs[n]; reading a nil map yields the zero value. -/
def Styles.lookup (hs : Styles) (n : String) : Option Style :=
  lookupEntry (hs.entries.getD []) n

/-- Go map assignment hs[n] = st.  Assigning into a nil map is a run-time
error in Go; in this program the only assignment site (the seeding of
CustomStyles in Init) runs on the package-initialized non-nil map. -/
def Styles.set (hs : Styles) (n : String) (st : Style) : Styles :=
  ⟨some (insertEntry (hs.entries.getD []) n st)⟩

/-- Names outputs names of styles in collection (histyles.go, Styles.Names).
The Go loop collects the map keys in iteration order; it does not sort. -/
def Styles.Names (hs : Styles) : List String :=
  entryKeys (hs.entries.getD [])

/-- CopyFrom copies styles from another collection (histyles.go,
Styles.CopyFrom): allocate the receiver when nil, then assign every entry
of the source.  Entries are copied by reference in Go; on the value model
of Style this is the value itself. -/
def Styles.CopyFrom (hs : Styles) (os : Styles) : Styles :=
  ⟨some (copyEntries (hs.entries.getD []) (os.entries.getD []))⟩

/-- FromChroma copies styles from chroma (histyles.go, Styles.FromChroma).
Modelled from the spec: the per-entry conversion from the chroma style
representation is total and is performed before the snapshot reaches this
function, so cs already holds converted Style values.  Like CopyFrom, the
Go loop allocates the receiver when nil and assigns every entry; it does
not clear existing entries. -/
def Styles.FromChroma (hs : Styles) (cs : StyleMap) : Styles :=
  ⟨some (copyEntries (hs.entries.getD []) cs)⟩

/-- Errors surfaced by the persistence operations. -/
inductive GoErr
  | ioError
  | decodeError
deriving DecidableEq

/-- Content of the preferences file as seen by a read:
none when ReadFile fails (file absent or unreadable);
some none when the bytes are not valid JSON;
some (some m) when the JSON decodes to the map m. -/
abbrev FileContent := Option (Option StyleMap)

/-- The external world of the registry: the converted chroma registry
snapshot consumed by Init, the content at the fixed preferences path
(oswin.TheApp.AppPrefsDir() joined with PrefsStylesFileName), and whether
a write to that path succeeds. -/
structure Env where
  chromaRegistry : StyleMap
  prefsFile : FileContent
  writeOk : Bool
deriving DecidableEq

/-- PrefsStylesFileName is the name of the preferences file (histyles.go). -/
def PrefsStylesFileName : String := "hi_styles.json"

/-- The process-wide mutable state of histyles.go: the three collections,
the fallback name, the derived name list, and the change flag. -/
structure RegistryState where
  StdStyles : Styles
  CustomStyles : Styles
  AvailStyles : Styles
  StyleDefault : String
  StyleNames : List String
  StylesChanged : Bool
deriving DecidableEq

/-- MergeAvailStyles (histyles.go): AvailStyles becomes a fresh allocated
map, entries of StdStyles are copied in, then entries of CustomStyles, and
StyleNames becomes AvailStyles.Names(). -/
def MergeAvailStyles (s : RegistryState) : RegistryState :=
  { s with
      AvailStyles := Styles.CopyFrom (Styles.CopyFrom ⟨some []⟩ s.StdStyles) s.CustomStyles,
      StyleNames := (Styles.CopyFrom (Styles.CopyFrom ⟨some []⟩ s.StdStyles) s.CustomStyles).Names }

/-- OpenJSON (histyles.go): read the file; on a read error return it with
the receiver untouched; otherwise json.Unmarshal into the receiver.
Unmarshal validates the whole input before storing anything, so invalid
JSON also leaves the receiver untouched; on valid input it reuses the
existing map, keeping existing entries, and stores every decoded entry. -/
def Styles.OpenJSON (hs : Styles) (file : FileContent) : Styles × Option GoErr :=
  match file with
  | none => (hs, some GoErr.ioError)
  | some none => (hs, some GoErr.decodeError)
  | some (some m) => (⟨some (copyEntries (hs.entries.getD []) m)⟩, none)

/-- SaveJSON (histyles.go): marshal the receiver (the spec notes encoding
cannot fail for well-formed in-memory data) and write the file.  The first
component is the content now at the path (none when the write failed). -/
def Styles.SaveJSON (hs : Styles) (writeOk : Bool) : Option StyleMap × Option GoErr :=
  if writeOk then (some (hs.entries.getD []), none)
  else (none, some GoErr.ioError)

/-- OpenPrefs (histyles.go), instantiated at its receiver CustomStyles:
resolve the preferences path, set StylesChanged to false, then OpenJSON
into CustomStyles, returning its error. -/
def OpenPrefs (env : Env) (s : RegistryState) : RegistryState × Option GoErr :=
  ({ s with
      StylesChanged := false,
      CustomStyles := (Styles.OpenJSON s.CustomStyles env.prefsFile).1 },
   (Styles.OpenJSON s.CustomStyles env.prefsFile).2)

/-- SavePrefs (histyles.go), instantiated at its receiver CustomStyles:
resolve the preferences path, set StylesChanged to false, call
MergeAvailStyles, then SaveJSON of CustomStyles.  The middle component is
the content written to the preferences path. -/
def SavePrefs (env : Env) (s : RegistryState) :
    RegistryState × Option StyleMap × Option GoErr :=
  (MergeAvailStyles { s with StylesChanged := false },
   ((MergeAvailStyles { s with StylesChanged := false }).CustomStyles.SaveJSON env.writeOk).1,
   ((MergeAvailStyles { s with StylesChanged := false }).CustomStyles.SaveJSON env.writeOk).2)

/-- Modelled from the spec: Style.CopyFrom is defined outside this file;
the spec says the seeded entry is a deep copy of the default standard
style.  On the value model a deep copy is the value itself; a nil source
yields the zero Style. -/
def styleCopyFrom (src : Option Style) : Style := src.getD 0

/-- Step (a) of Init: StdStyles.FromChroma(styles.Registry). -/
def initStd (env : Env) (s : RegistryState) : RegistryState :=
  { s with StdStyles := s.StdStyles.FromChroma env.chromaRegistry }

/-- Step (b) of Init: CustomStyles.OpenPrefs(), the returned error
discarded. -/
def initAfterLoad (env : Env) (s : RegistryState) : RegistryState :=
  (OpenPrefs env (initStd env s)).1

/-- Step (c) of Init: when len(CustomStyles) == 0, store under
"custom-sample" a fresh Style copied from StdStyles[StyleDefault]. -/
def initSeeded (env : Env) (s : RegistryState) : RegistryState :=
  if ((initAfterLoad env s).CustomStyles.entries.getD []).length = 0 then
    { initAfterLoad env s with
        CustomStyles := (initAfterLoad env s).CustomStyles.set "custom-sample"
          (styleCopyFrom ((initAfterLoad env s).StdStyles.lookup
            (initAfterLoad env s).StyleDefault)) }
  else initAfterLoad env s

/-- Init (histyles.go): populate StdStyles from chroma, load CustomStyles
from the preferences path discarding the error, seed CustomStyles when it
is still empty, then MergeAvailStyles.  The call InitHiTagNames() touches
only the tag-name table, not the registry state, and is omitted. -/
def Init (env : Env) (s : RegistryState) : RegistryState :=
  MergeAvailStyles (initSeeded env s)

/-- AvailStyle (histyles.go): when AvailStyles is nil run Init first, then
return the entry under nm, falling back to the entry under StyleDefault.
The result is the returned pointer (none models a nil pointer) paired with
the registry state after the call. -/
def AvailStyle (env : Env) (s : RegistryState) (nm : String) :
    Option Style × RegistryState :=
  let s1 := if s.AvailStyles.entries = none then Init env s else s
  match s1.AvailStyles.lookup nm with
  | some st => (some st, s1)
  | none => (s1.AvailStyles.lookup s1.StyleDefault, s1)

/-! Basic facts about the embedded map operations. -/

@[simp] theorem entryKeys_nil : entryKeys [] = [] := rfl

@[simp] theorem entryKeys_cons (k : String) (v : Style) (l : StyleMap) :
    entryKeys ((k, v) :: l) = k :: entryKeys l := rfl

theorem lookupEntry_insertEntry_self (l : StyleMap) (n : String) (st : Style) :
    lookupEntry (insertEntry l n st) n = some st := by
  induction l with
  | nil => simp [insertEntry, lookupEntry]
  | cons p rest ih =>
    obtain ⟨k, v⟩ := p
    by_cases hk : k = n
    · simp [insertEntry, hk, lookupEntry]
    · simp [insertEntry, hk, lookupEntry, ih]

theorem lookupEntry_insertEntry_ne (l : StyleMap) (n : String) (st : Style)
    (n2 : String) (h : n2 ≠ n) :
    lookupEntry (insertEntry l n st) n2 = lookupEntry l n2 := by
  induction l with
  | nil => simp [insertEntry, lookupEntry, Ne.symm h]
  | cons p rest ih =>
    obtain ⟨k, v⟩ := p
    by_cases hk : k = n
    · subst hk
      simp [insertEntry, lookupEntry, Ne.symm h, fun hh : k = n2 => h (hh.symm)]
    · by_cases hk2 : k = n2
      · simp [insertEntry, hk, lookupEntry, hk2, h]
      · simp [insertEntry, hk, lookupEntry, hk2, ih]

theorem entryKeys_insertEntry (l : StyleMap) (n : String) (st : Style) :
    entryKeys (insertEntry l n st) =
      if n ∈ entryKeys l then entryKeys l else entryKeys l ++ [n] := by
  induction l with
  | nil => simp [insertEntry]
  | cons p rest ih =>
    obtain ⟨k, v⟩ := p
    by_cases hk : k = n
    · subst hk
      simp [insertEntry]
    · by_cases hm : n ∈ entryKeys rest
      · simp [insertEntry, hk, ih, hm, Ne.symm hk]
      · simp [insertEntry, hk, ih, hm, Ne.symm hk]

theorem entryKeys_insertEntry_nodup (l : StyleMap) (n : String) (st : Style)
    (h : (entryKeys l).Nodup) : (entryKeys (insertEntry l n st)).Nodup := by
  rw [entryKeys_insertEntry]
  by_cases hm : n ∈ entryKeys l
  · simpa [hm] using h
  · simp only [hm, if_false]
    rw [List.nodup_append]
    exact ⟨h, List.nodup_singleton n, by simpa [List.disjoint_singleton] using hm⟩

theorem lookupEntry_isSome_iff (l : StyleMap) (n : String) :
    (lookupEntry l n).isSome ↔ n ∈ entryKeys l := by
  induction l with
  | nil => simp [lookupEntry]
  | cons p rest ih =>
    obtain ⟨k, v⟩ := p
    by_cases hk : k = n
    · subst hk
      simp [lookupEntry]
    · simp [lookupEntry, hk, ih, Ne.symm hk]

theorem lookupEntry_eq_none_of_not_mem (l : StyleMap) (n : String)
    (h : n ∉ entryKeys l) : lookupEntry l n = none := by
  have := (lookupEntry_isSome_iff l n).not.mpr h
  cases hl : lookupEntry l n with
  | none => rfl
  | some st => rw [hl] at this; simp at this

theorem lookupEntry_copyEntries_of_not_mem (src : StyleMap) :
    ∀ (dst : StyleMap) (n : String), n ∉ entryKeys src →
      lookupEntry (copyEntries dst src) n = lookupEntry dst n := by
  induction src with
  | nil => intro dst n _; rfl
  | cons p rest ih =>
    intro dst n h
    obtain ⟨k, v⟩ := p
    simp only [entryKeys_cons, List.mem_cons] at h
    push_neg at h
    show lookupEntry (copyEntries (insertEntry dst k v) rest) n = lookupEntry dst n
    rw [ih _ _ h.2, lookupEntry_insertEntry_ne _ _ _ _ h.1]

theorem lookupEntry_copyEntries_of_mem (src : StyleMap) :
    ∀ (dst : StyleMap) (n : String), (entryKeys src).Nodup → n ∈ entryKeys src →
      lookupEntry (copyEntries dst src) n = lookupEntry src n := by
  induction src with
  | nil => intro dst n _ h; simp at h
  | cons p rest ih =>
    intro dst n hnd hm
    obtain ⟨k, v⟩ := p
    rw [entryKeys_cons, List.nodup_cons] at hnd
    by_cases hk : n = k
    · subst hk
      show lookupEntry (copyEntries (insertEntry dst n v) rest) n = _
      rw [lookupEntry_copyEntries_of_not_mem rest _ _ hnd.1,
        lookupEntry_insertEntry_self]
      simp [lookupEntry]
    · have hm2 : n ∈ entryKeys rest := by
        rcases (List.mem_cons.mp (by simpa using hm)) with h1 | h2
        · exact absurd h1 hk
        · exact h2
      show lookupEntry (copyEntries (insertEntry dst k v) rest) n = _
      rw [ih _ _ hnd.2 hm2]
      simp [lookupEntry, Ne.symm hk]

theorem entryKeys_copyEntries_nodup (src : StyleMap) :
    ∀ dst : StyleMap, (entryKeys dst).Nodup →
      (entryKeys (copyEntries dst src)).Nodup := by
  induction src with
  | nil => intro dst h; exact h
  | cons p rest ih =>
    intro dst h
    obtain ⟨k, v⟩ := p
    exact ih _ (entryKeys_insertEntry_nodup _ _ _ h)

theorem mem_entryKeys_copyEntries (src : StyleMap) :
    ∀ (dst : StyleMap) (n : String),
      n ∈ entryKeys (copyEntries dst src) ↔ n ∈ entryKeys dst ∨ n ∈ entryKeys src := by
  induction src with
  | nil => intro dst n; simp [copyEntries]
  | cons p rest ih =>
    intro dst n
    obtain ⟨k, v⟩ := p
    show n ∈ entryKeys (copyEntries (insertEntry dst k v) rest) ↔ _
    rw [ih]
    rw [entryKeys_insertEntry]
    by_cases hm : k ∈ entryKeys dst
    · simp only [hm, if_true, entryKeys_cons, List.mem_cons]
      constructor
      · rintro (h1 | h2)
        · exact Or.inl h1
        · exact Or.inr (Or.inr h2)
      · rintro (h1 | h2 | h3)
        · exact Or.inl h1
        · exact Or.inl (h2 ▸ hm)
        · exact Or.inr h3
    · simp only [hm, if_false, entryKeys_cons, List.mem_cons, List.mem_append,
        List.mem_singleton]
      tauto

/-- The AvailStyles collection produced by MergeAvailStyles, spelled out:
a fresh map holding the entries of StdStyles and then those of
CustomStyles. -/
theorem mergeAvailStyles_avail (s : RegistryState) :
    (MergeAvailStyles s).AvailStyles =
      ⟨some (copyEntries (copyEntries [] (s.StdStyles.entries.getD []))
        (s.CustomStyles.entries.getD []))⟩ := rfl

theorem mergeAvailStyles_styleNames (s : RegistryState) :
    (MergeAvailStyles s).StyleNames =
      entryKeys (copyEntries (copyEntries [] (s.StdStyles.entries.getD []))
        (s.CustomStyles.entries.getD [])) := rfl

theorem styles_lookup_def (hs : Styles) (n : String) :
    hs.lookup n = lookupEntry (hs.entries.getD []) n := rfl

theorem styles_names_def (hs : Styles) :
    hs.Names = entryKeys (hs.entries.getD []) := rfl

theorem mergeAvail_lookup (s : RegistryState) (n : String) :
    (MergeAvailStyles s).AvailStyles.lookup n =
      lookupEntry (copyEntries (copyEntries [] (s.StdStyles.entries.getD []))
        (s.CustomStyles.entries.getD [])) n := rfl

/-! Shared concrete inputs for the witnesses. -/

/-- A populated registry state: two standard styles, a custom override of
the "emacs" entry, an available collection holding the default entry. -/
def sampleState : RegistryState :=
  { StdStyles := ⟨some [("emacs", 1), ("tango", 2)]⟩,
    CustomStyles := ⟨some [("emacs", 9)]⟩,
    AvailStyles := ⟨some [("emacs", 1)]⟩,
    StyleDefault := "emacs",
    StyleNames := [],
    StylesChanged := false }

/-- The state of the registry before any initialization: StdStyles and
AvailStyles are nil maps and CustomStyles is the package-initialized empty
map, as in the Go package-level variable declarations. -/
def startState : RegistryState :=
  { StdStyles := ⟨none⟩,
    CustomStyles := ⟨some []⟩,
    AvailStyles := ⟨none⟩,
    StyleDefault := "emacs",
    StyleNames := [],
    StylesChanged := false }

/-- An environment whose preferences file is absent. -/
def sampleEnv : Env :=
  { chromaRegistry := [("emacs", 7)], prefsFile := none, writeOk := true }

/-- An environment whose preferences file holds invalid JSON. -/
def badFileEnv : Env :=
  { chromaRegistry := [("emacs", 7)], prefsFile := some none, writeOk := true }

/-! The claims. -/

/-- C1: after MergeAvailStyles recomputes AvailStyles from StdStyles (A)
and CustomStyles (B), every name of B maps in AvailStyles to its B entry
(the later, Custom copy wins on collision), and every name of A that is
not in B maps to its A entry.  The Nodup hypotheses express the Go map
invariant that keys within one collection are unique. -/
theorem mergeAvailStyles_custom_precedence (s : RegistryState)
    (hA : (s.StdStyles.Names).Nodup) (hB : (s.CustomStyles.Names).Nodup) :
    (∀ n, (s.CustomStyles.lookup n).isSome →
        (MergeAvailStyles s).AvailStyles.lookup n = s.CustomStyles.lookup n) ∧
    (∀ n, (s.StdStyles.lookup n).isSome → s.CustomStyles.lookup n = none →
        (MergeAvailStyles s).AvailStyles.lookup n = s.StdStyles.lookup n) := by
  rw [styles_names_def] at hA hB
  constructor
  · intro n hn
    rw [styles_lookup_def] at hn
    have hmem := (lookupEntry_isSome_iff _ _).mp hn
    rw [mergeAvail_lookup, styles_lookup_def,
      lookupEntry_copyEntries_of_mem _ _ _ hB hmem]
  · intro n hn hnone
    rw [styles_lookup_def] at hn hnone
    have hmemA := (lookupEntry_isSome_iff _ _).mp hn
    have hnmem : n ∉ entryKeys (s.CustomStyles.entries.getD []) := by
      intro hmem
      have := (lookupEntry_isSome_iff _ _).mpr hmem
      rw [hnone] at this
      simp at this
    rw [mergeAvail_lookup, styles_lookup_def,
      lookupEntry_copyEntries_of_not_mem _ _ _ hnmem,
      lookupEntry_copyEntries_of_mem _ _ _ hA hmemA]

/-- Witness for C1 at a concrete state: the custom override of "emacs"
wins and the purely standard "tango" entry survives. -/
theorem mergeAvailStyles_custom_precedence_witness :
    (MergeAvailStyles sampleState).AvailStyles.lookup "emacs" =
      sampleState.CustomStyles.lookup "emacs" ∧
    (MergeAvailStyles sampleState).AvailStyles.lookup "tango" =
      sampleState.StdStyles.lookup "tango" := by
  have h := mergeAvailStyles_custom_precedence sampleState (by decide) (by decide)
  exact ⟨h.1 "emacs" (by decide), h.2 "tango" (by decide) (by decide)⟩

/-- C2: with AvailStyles allocated, AvailStyle returns exactly the stored
entry for a present name, and the entry read under StyleDefault for an
absent name. -/
theorem availStyle_lookup_semantics (env : Env) (s : RegistryState) (nm : String)
    (h : s.AvailStyles.entries ≠ none) :
    (∀ st, s.AvailStyles.lookup nm = some st → (AvailStyle env s nm).1 = some st) ∧
    (s.AvailStyles.lookup nm = none →
      (AvailStyle env s nm).1 = s.AvailStyles.lookup s.StyleDefault) := by
  constructor
  · intro st hst
    simp [AvailStyle, h, hst]
  · intro hn
    simp [AvailStyle, h, hn]

/-- Witness for C2 at a concrete state: a present name returns its entry,
an absent name falls back to the default entry. -/
theorem availStyle_lookup_semantics_witness :
    (AvailStyle sampleEnv sampleState "emacs").1 = some 1 ∧
    (AvailStyle sampleEnv sampleState "nosuch").1 =
      sampleState.AvailStyles.lookup "emacs" := by
  refine ⟨(availStyle_lookup_semantics sampleEnv sampleState "emacs"
    (by decide)).1 1 (by decide), ?_⟩
  exact (availStyle_lookup_semantics sampleEnv sampleState "nosuch" (by decide)).2
    (by decide)

/-- C3: when AvailStyles is nil, AvailStyle runs Init once before looking
up: the state after the call is exactly the state Init produces, that
state has an allocated AvailStyles, the returned value is the lookup in
the initialized state, and a following call performs no further Init (it
leaves the state unchanged).  The CustomStyles hypothesis restricts to
states reachable in the program, whose CustomStyles map is initialized
non-nil at package load. -/
theorem availStyle_lazy_init_once (env : Env) (s : RegistryState) (nm nm2 : String)
    (h : s.AvailStyles.entries = none) (_hc : s.CustomStyles.entries ≠ none) :
    (AvailStyle env s nm).2 = Init env s ∧
    (Init env s).AvailStyles.entries ≠ none ∧
    ((AvailStyle env s nm).1 = (match (Init env s).AvailStyles.lookup nm with
      | some st => some st
      | none => (Init env s).AvailStyles.lookup (Init env s).StyleDefault)) ∧
    (AvailStyle env (AvailStyle env s nm).2 nm2).2 = (AvailStyle env s nm).2 := by
  have hinit : (Init env s).AvailStyles.entries ≠ none := by
    rw [Init, mergeAvailStyles_avail]
    simp
  have h2 : (AvailStyle env s nm).2 = Init env s := by
    cases hl : (Init env s).AvailStyles.lookup nm <;> simp [AvailStyle, h, hl]
  refine ⟨h2, hinit, ?_, ?_⟩
  · cases hl : (Init env s).AvailStyles.lookup nm <;> simp [AvailStyle, h, hl]
  · rw [h2]
    cases hl : (Init env s).AvailStyles.lookup nm2 <;>
      simp [AvailStyle, hinit, hl]

/-- Witness for C3 at the uninitialized start state with an absent
preferences file. -/
theorem availStyle_lazy_init_once_witness :
    (AvailStyle sampleEnv startState "x").2 = Init sampleEnv startState ∧
    (Init sampleEnv startState).AvailStyles.entries ≠ none := by
  have h := availStyle_lazy_init_once sampleEnv startState "x" "y"
    (by decide) (by decide)
  exact ⟨h.1, h.2.1⟩

/-- A state whose standard collection holds only the name "b" and whose
custom collection only the name "a"; the merge then visits "b" first. -/
def unsortedState : RegistryState :=
  { StdStyles := ⟨some [("b", 1)]⟩,
    CustomStyles := ⟨some [("a", 2)]⟩,
    AvailStyles := ⟨none⟩,
    StyleDefault := "emacs",
    StyleNames := [],
    StylesChanged := false }

/-- C4 counterexample: at unsortedState, MergeAvailStyles leaves
StyleNames as the list b, a in map iteration order, which is not sorted,
so StyleNames is not the sorted name set the claim describes —
Styles.Names performs no sort. -/
theorem mergeAvailStyles_styleNames_not_sorted :
    (MergeAvailStyles unsortedState).StyleNames = ["b", "a"] ∧
    ¬ List.Sorted (fun x y : String => x ≤ y) ["b", "a"] := by
  refine ⟨by decide, ?_⟩
  intro hs
  have h1 : ("b" : String) ≤ "a" := (List.sorted_cons.mp hs).1 "a" (by simp)
  have h2 : ("a" : String) < "b" := by
    rw [String.lt_iff_toList_lt]
    decide
  exact absurd h1 (not_le_of_lt h2)

/-- C4 (amended): after every MergeAvailStyles, StyleNames is the
duplicate-free name set of AvailStyles — no duplicates, and a name occurs
in it exactly when AvailStyles stores an entry under it — but in map
iteration order, with no sorting guarantee. -/
theorem mergeAvailStyles_styleNames_name_set (s : RegistryState) :
    (MergeAvailStyles s).StyleNames.Nodup ∧
    ∀ n, n ∈ (MergeAvailStyles s).StyleNames ↔
      ((MergeAvailStyles s).AvailStyles.lookup n).isSome := by
  constructor
  · rw [mergeAvailStyles_styleNames]
    exact entryKeys_copyEntries_nodup _ _
      (entryKeys_copyEntries_nodup _ _ (by simp))
  · intro n
    rw [mergeAvailStyles_styleNames, mergeAvail_lookup]
    exact (lookupEntry_isSome_iff _ _).symm

/-- C5 counterexample: loading a file that decodes to an object holding
only the name "y" into a collection holding "x" succeeds, yet the prior
entry "x" is still present afterwards — json.Unmarshal reuses the
existing map and keeps its entries, so names previously in the receiver
and absent from the file are not gone. -/
theorem openJSON_keeps_stale_entries :
    (Styles.OpenJSON ⟨some [("x", 1)]⟩ (some (some [("y", 2)]))).2 = none ∧
    ((Styles.OpenJSON ⟨some [("x", 1)]⟩ (some (some [("y", 2)]))).1).lookup "x"
      = some 1 := by
  decide

/-- C5 (amended): OpenJSON leaves the receiver untouched and returns the
error on a read failure or on invalid JSON; on success it stores every
entry decoded from the file — file entries win on name collision — while
keeping receiver entries whose names are not in the file: a merge, not an
overwrite. -/
theorem openJSON_semantics (hs : Styles) (m : StyleMap)
    (hm : (entryKeys m).Nodup) :
    Styles.OpenJSON hs none = (hs, some GoErr.ioError) ∧
    Styles.OpenJSON hs (some none) = (hs, some GoErr.decodeError) ∧
    (Styles.OpenJSON hs (some (some m))).2 = none ∧
    (∀ n, (lookupEntry m n).isSome →
      ((Styles.OpenJSON hs (some (some m))).1).lookup n = lookupEntry m n) ∧
    (∀ n, lookupEntry m n = none →
      ((Styles.OpenJSON hs (some (some m))).1).lookup n = hs.lookup n) := by
  refine ⟨rfl, rfl, rfl, ?_, ?_⟩
  · intro n hn
    have hmem := (lookupEntry_isSome_iff _ _).mp hn
    show lookupEntry (copyEntries (hs.entries.getD []) m) n = _
    exact lookupEntry_copyEntries_of_mem _ _ _ hm hmem
  · intro n hn
    have hnm : n ∉ entryKeys m := by
      intro hmem
      have := (lookupEntry_isSome_iff _ _).mpr hmem
      rw [hn] at this
      simp at this
    show lookupEntry (copyEntries (hs.entries.getD []) m) n = _
    exact lookupEntry_copyEntries_of_not_mem _ _ _ hnm

/-- Witness for C5 (amended) at concrete inputs: the file entry "y" is
stored in the receiver. -/
theorem openJSON_semantics_witness :
    ((Styles.OpenJSON ⟨some [("x", 1)]⟩ (some (some [("y", 2)]))).1).lookup "y"
      = some 2 := by
  have h := openJSON_semantics ⟨some [("x", 1)]⟩ [("y", 2)] (by decide)
  exact (h.2.2.2.1 "y" (by decide)).trans (by decide)

/-- C6: after Init, CustomStyles is non-empty; when the preferences load
left it empty, Init seeds exactly one entry named "custom-sample" holding
a copy of the freshly populated standard style stored under StyleDefault,
and when the load produced a non-empty collection no seeding occurs.  The
CustomStyles hypothesis matches the program, whose CustomStyles map is
initialized non-nil at package load. -/
theorem init_seeds_custom_sample (env : Env) (s : RegistryState)
    (_hc : s.CustomStyles.entries ≠ none) :
    ((((Styles.OpenJSON s.CustomStyles env.prefsFile).1).entries.getD []).length = 0 →
      (Init env s).CustomStyles = ⟨some [("custom-sample",
        styleCopyFrom ((s.StdStyles.FromChroma env.chromaRegistry).lookup
          s.StyleDefault))]⟩) ∧
    ((((Styles.OpenJSON s.CustomStyles env.prefsFile).1).entries.getD []).length ≠ 0 →
      (Init env s).CustomStyles = (Styles.OpenJSON s.CustomStyles env.prefsFile).1) ∧
    ((Init env s).CustomStyles.entries.getD []).length ≠ 0 := by
  have hseed : (((Styles.OpenJSON s.CustomStyles env.prefsFile).1).entries.getD
        []).length = 0 →
      (Init env s).CustomStyles = ⟨some [("custom-sample",
        styleCopyFrom ((s.StdStyles.FromChroma env.chromaRegistry).lookup
          s.StyleDefault))]⟩ := by
    intro hlen
    have hlen2 : ((initAfterLoad env s).CustomStyles.entries.getD []).length = 0 :=
      hlen
    have hempty : (initAfterLoad env s).CustomStyles.entries.getD [] = [] :=
      List.length_eq_zero.mp hlen2
    show (initSeeded env s).CustomStyles = _
    unfold initSeeded
    rw [if_pos hlen2]
    show Styles.set (initAfterLoad env s).CustomStyles "custom-sample" _ = _
    unfold Styles.set
    rw [hempty]
    rfl
  have hnoseed : (((Styles.OpenJSON s.CustomStyles env.prefsFile).1).entries.getD
        []).length ≠ 0 →
      (Init env s).CustomStyles = (Styles.OpenJSON s.CustomStyles env.prefsFile).1 := by
    intro hlen
    have hlen2 : ¬ ((initAfterLoad env s).CustomStyles.entries.getD []).length = 0 :=
      hlen
    show (initSeeded env s).CustomStyles = _
    unfold initSeeded
    rw [if_neg hlen2]
    rfl
  refine ⟨hseed, hnoseed, ?_⟩
  by_cases hlen :
      (((Styles.OpenJSON s.CustomStyles env.prefsFile).1).entries.getD []).length = 0
  · rw [hseed hlen]
    simp
  · rw [hnoseed hlen]
    exact hlen

/-- Witness for C6 at the start state with an absent preferences file:
the one seeded entry copies the "emacs" standard style. -/
theorem init_seeds_custom_sample_witness :
    (Init sampleEnv startState).CustomStyles = ⟨some [("custom-sample", 7)]⟩ := by
  have h := init_seeds_custom_sample sampleEnv startState (by decide)
  exact (h.1 (by decide)).trans (by decide)

/-- C7: SaveJSON of a collection followed by OpenJSON of the written file
into a fresh empty collection reproduces an equal collection: every
lookup agrees, so the name set and the stored values coincide.  The Nodup
hypothesis is the Go map key invariant of the saved collection; the
embedding of the JSON layer assumes per-entry round-tripping, as the spec
requires of Style documents. -/
theorem saveJSON_openJSON_roundtrip (hs : Styles) (m : StyleMap)
    (hnd : (hs.Names).Nodup) (hm : (Styles.SaveJSON hs true).1 = some m) :
    (Styles.OpenJSON ⟨some []⟩ (some (some m))).2 = none ∧
    ∀ n, ((Styles.OpenJSON ⟨some []⟩ (some (some m))).1).lookup n = hs.lookup n := by
  rw [styles_names_def] at hnd
  have hm2 : hs.entries.getD [] = m := Option.some_inj.mp hm
  subst hm2
  refine ⟨rfl, ?_⟩
  intro n
  by_cases hmem : n ∈ entryKeys (hs.entries.getD [])
  · show lookupEntry (copyEntries [] (hs.entries.getD [])) n = _
    rw [lookupEntry_copyEntries_of_mem _ _ _ hnd hmem]
    rfl
  · show lookupEntry (copyEntries [] (hs.entries.getD [])) n = _
    rw [lookupEntry_copyEntries_of_not_mem _ _ _ hmem, styles_lookup_def,
      lookupEntry_eq_none_of_not_mem _ _ hmem]
    rfl

/-- Witness for C7 at a concrete one-entry collection. -/
theorem saveJSON_openJSON_roundtrip_witness :
    ((Styles.OpenJSON ⟨some []⟩ (some (some [("a", 3)]))).1).lookup "a" = some 3 := by
  have h := saveJSON_openJSON_roundtrip ⟨some [("a", 3)]⟩ [("a", 3)]
    (by decide) (by decide)
  exact (h.2 "a").trans (by decide)

/-- C8: a failed custom-preferences load never reaches the caller of
Init: whenever the load attempt fails (file absent, unreadable, or
malformed), Init discards the error and behaves exactly as with an absent
file — the failure is treated as no custom styles yet — and it still
completes the remaining seeding and merge steps, ending with an allocated
AvailStyles. -/
theorem init_swallows_load_error (env : Env) (s : RegistryState)
    (h : ((Styles.OpenJSON s.CustomStyles env.prefsFile).2).isSome) :
    Init env s = Init { env with prefsFile := none } s ∧
    (Init env s).AvailStyles.entries ≠ none := by
  refine ⟨?_, ?_⟩
  · obtain ⟨cr, pf, w⟩ := env
    cases pf with
    | none => rfl
    | some q =>
      cases q with
      | none => rfl
      | some m => simp [Styles.OpenJSON] at h
  · rw [Init, mergeAvailStyles_avail]
    simp

/-- Witness for C8: an invalid preferences file behaves as an absent one. -/
theorem init_swallows_load_error_witness :
    Init badFileEnv startState =
      Init { badFileEnv with prefsFile := none } startState :=
  (init_swallows_load_error badFileEnv startState (by decide)).1

/-- C9: StylesChanged is false immediately after Init, after OpenPrefs
and after SavePrefs; moreover SavePrefs recomputes AvailStyles via
MergeAvailStyles before persisting CustomStyles: its resulting state is
exactly the merge of the flag-cleared state, and the content written to
the preferences path is the CustomStyles collection when the write
succeeds, nothing otherwise. -/
theorem dirty_flag_clearing_and_savePrefs (env : Env) (s : RegistryState) :
    (Init env s).StylesChanged = false ∧
    ((OpenPrefs env s).1).StylesChanged = false ∧
    ((SavePrefs env s).1).StylesChanged = false ∧
    (SavePrefs env s).1 = MergeAvailStyles { s with StylesChanged := false } ∧
    (SavePrefs env s).2.1 =
      (if env.writeOk then some (s.CustomStyles.entries.getD []) else none) := by
  refine ⟨?_, rfl, rfl, rfl, ?_⟩
  · show (initSeeded env s).StylesChanged = false
    unfold initSeeded
    split
    · rfl
    · rfl
  · show (Styles.SaveJSON s.CustomStyles env.writeOk).1 = _
    unfold Styles.SaveJSON
    split
    · rfl
    · rfl

/-- C10: MergeAvailStyles mutates only the derived state: StdStyles and
CustomStyles (and with them every one of their entries), StyleDefault and
StylesChanged are left exactly as they were, while AvailStyles is
completely replaced by a fresh merge of the two source collections —
independent of its prior value — and StyleNames by the names of that
merge. -/
theorem mergeAvailStyles_frame (s : RegistryState) :
    (MergeAvailStyles s).StdStyles = s.StdStyles ∧
    (MergeAvailStyles s).CustomStyles = s.CustomStyles ∧
    (MergeAvailStyles s).StyleDefault = s.StyleDefault ∧
    (MergeAvailStyles s).StylesChanged = s.StylesChanged ∧
    (MergeAvailStyles s).AvailStyles =
      Styles.CopyFrom (Styles.CopyFrom ⟨some []⟩ s.StdStyles) s.CustomStyles ∧
    (MergeAvailStyles s).StyleNames =
      (Styles.CopyFrom (Styles.CopyFrom ⟨some []⟩ s.StdStyles) s.CustomStyles).Names :=
  ⟨rfl, rfl, rfl, rfl, rfl, rfl⟩

end Histyle
